import Mathlib

/-!
Shallow embedding of the command parser and permission cache of the bors bot
(src/bors/command/parser.rs and src/permissions.rs).

Strings are modelled by Lean `String`; the string primitives the Rust code
relies on (`split_whitespace`, `split_once`, `starts_with`, `str::find`,
`str::lines`) are defined below by structural recursion over `String.data`,
so that every definition is kernel-computable. Rust `char::is_whitespace`
is modelled by `Char.isWhitespace` (they agree on ASCII, which is the only
whitespace the command surface uses). Rust `str::len` on the ASCII commit
identifiers the parser validates coincides with the character count
`String.length`.
-/

deriving instance DecidableEq for Except

namespace Bors

/-- Commit identifier newtype. Modelled from the spec: `CommitSha` lives in
the out-of-scope `github` module; the spec pins it as a plain opaque string
wrapper ("the single `CommitSha` value type needed for validation"). -/
structure CommitSha where
  val : String
deriving DecidableEq

/-- The closed command set produced by the parser (`BorsCommand`). -/
inductive BorsCommand where
  | Ping
  | Try (parent : Option CommitSha)
  | TryCancel
deriving DecidableEq

/-- `CommandParseError` from src/bors/command/parser.rs. -/
inductive CommandParseError where
  | MissingCommand
  | UnknownCommand (name : String)
  | MissingArgValue (arg : String)
  | UnknownArg (name : String)
  | DuplicateArg (key : String)
  | ValidationError (msg : String)
deriving DecidableEq

/-- `CommandPart` from src/bors/command/parser.rs: either a bare token like
`try` or a key value like `parent=<sha>`. -/
inductive CommandPart where
  | Bare (s : String)
  | KeyValue (key : String) (value : String)
deriving DecidableEq

/-! ### String primitives (models of the Rust std functions used) -/

/-- Accumulating worker for `split_whitespace`. -/
def words_aux : List Char → List Char → List (List Char)
  | [], cur => if cur.isEmpty then [] else [cur.reverse]
  | c :: cs, cur =>
    if c.isWhitespace then
      if cur.isEmpty then words_aux cs [] else cur.reverse :: words_aux cs []
    else words_aux cs (c :: cur)

/-- Model of Rust `str::split_whitespace`: whitespace-separated tokens,
runs of whitespace insignificant, no empty tokens. -/
def split_whitespace (s : String) : List String :=
  (words_aux s.data []).map (fun cs => ⟨cs⟩)

/-- Worker for `split_once`: scans for the first occurrence of `c0`. -/
def split_once_aux (c0 : Char) : List Char → List Char → Option (List Char × List Char)
  | [], _ => none
  | c :: cs, pre => if c = c0 then some (pre.reverse, cs) else split_once_aux c0 cs (c :: pre)

/-- Model of Rust `str::split_once(c0)`: splits at the first occurrence of
`c0` into the part before and the part after, or `none` when absent. -/
def split_once (c0 : Char) (s : String) : Option (String × String) :=
  (split_once_aux c0 s.data []).map (fun p => (⟨p.1⟩, ⟨p.2⟩))

/-- Model of Rust `item.starts_with(c0)`. -/
def starts_with (c0 : Char) (s : String) : Bool :=
  match s.data with
  | c :: _ => c = c0
  | [] => false

/-- Model of Rust `line.find(pat)` followed by slicing off everything up to
and including the match: returns the suffix after the first occurrence of
`pat`, or `none` when `pat` does not occur. -/
def after_first (pat : List Char) : List Char → Option (List Char)
  | [] => if pat.isPrefixOf ([] : List Char) then some [] else none
  | c :: cs =>
    if pat.isPrefixOf (c :: cs) then some ((c :: cs).drop pat.length)
    else after_first pat cs

/-- Strips one trailing carriage return (the `\r` of a `\r\n` line ending). -/
def strip_cr (cs : List Char) : List Char :=
  match cs.reverse with
  | c :: rest => if c = '\r' then rest.reverse else cs
  | [] => cs

/-- Worker for `rust_lines` over the `\n`-separated segments: every segment
followed by a newline loses a trailing `\r`; a final empty segment (text
ending in a newline) produces no line; a final nonempty segment is kept
verbatim. -/
def rust_lines_aux : List (List Char) → List (List Char)
  | [] => []
  | [last] => if last.isEmpty then [] else [last]
  | seg :: rest => strip_cr seg :: rust_lines_aux rest

/-- Splits at every occurrence of `c0` (model of `splitOn` for one char). -/
def split_char_aux (c0 : Char) : List Char → List Char → List (List Char)
  | [], cur => [cur.reverse]
  | c :: cs, cur =>
    if c = c0 then cur.reverse :: split_char_aux c0 cs []
    else split_char_aux c0 cs (c :: cur)

/-- Model of Rust `str::lines`: lines split at `\n` or `\r\n`, the final
line ending optional. -/
def rust_lines (text : String) : List String :=
  (rust_lines_aux (split_char_aux '\n' text.data [])).map (fun cs => ⟨cs⟩)

/-! ### The parser (src/bors/command/parser.rs) -/

/-- Loop body of `parse_parts`: walks the whitespace tokens left to right,
carrying the set of keys seen so far (`seen`, a `HashSet<&str>` in the
source, modelled by a list queried by membership) and the parts collected
so far. A token starting with `@` stops parsing (command for another bot);
a token containing `=` is split at the first `=`, an empty value fails with
`MissingArgValue`, a repeated key fails with `DuplicateArg`; any other
token is a `Bare` part. -/
def parse_parts_aux : List String → List String → List CommandPart →
    Except CommandParseError (List CommandPart)
  | [], _, parts => .ok parts
  | item :: rest, seen, parts =>
    if starts_with '@' item then .ok parts
    else
      match split_once '=' item with
      | some (key, value) =>
        if value = "" then .error (.MissingArgValue key)
        else if seen.contains key then .error (.DuplicateArg key)
        else parse_parts_aux rest (key :: seen) (parts ++ [.KeyValue key value])
      | none => parse_parts_aux rest seen (parts ++ [.Bare item])

/-- `parse_parts` on an already-tokenised line. -/
def parse_parts_tokens (tokens : List String) : Except CommandParseError (List CommandPart) :=
  parse_parts_aux tokens [] []

/-- `parse_parts` from src/bors/command/parser.rs. -/
def parse_parts (input : String) : Except CommandParseError (List CommandPart) :=
  parse_parts_tokens (split_whitespace input)

/-- Result type of one command matcher (`ParseResult` in the source):
`none` when the matcher does not claim the command name. -/
def ParseResult : Type :=
  Option (Except CommandParseError BorsCommand)

/-- `parser_ping`: claims the name `ping` unconditionally, ignores parts. -/
def parser_ping (command : String) (_parts : List CommandPart) : ParseResult :=
  if command = "ping" then some (.ok .Ping) else none

/-- `parse_sha`: a commit identifier must have exactly 40 characters; the
value is otherwise passed through verbatim. -/
def parse_sha (input : String) : Except String CommitSha :=
  if input.length ≠ 40 then .error "SHA must have exactly 40 characters"
  else .ok ⟨input⟩

/-- Loop of `parser_try` over the remaining parts, carrying the parent
parsed so far: a bare token is rejected as `UnknownArg`; `parent=<value>`
validates the value as a commit identifier and on failure produces a
`ValidationError` embedding the validation message; any other key is
rejected as `UnknownArg`. -/
def parser_try_go : List CommandPart → Option CommitSha →
    Except CommandParseError BorsCommand
  | [], parent => .ok (.Try parent)
  | .Bare key :: _, _ => .error (.UnknownArg key)
  | .KeyValue key value :: rest, parent =>
    if key = "parent" then
      match parse_sha value with
      | .ok sha => parser_try_go rest (some sha)
      | .error error =>
        .error (.ValidationError ("Try parent has to be a valid commit SHA: " ++ error))
    else
      have _ := parent
      .error (.UnknownArg key)

/-- `parser_try`: claims the name `try` unconditionally. -/
def parser_try (command : String) (parts : List CommandPart) : ParseResult :=
  if command = "try" then some (parser_try_go parts none) else none

/-- `parser_try_cancel`: claims the name `try` only when the first remaining
part is the bare token `cancel`. -/
def parser_try_cancel (command : String) (parts : List CommandPart) : ParseResult :=
  if command = "try" ∧ parts.head? = some (.Bare "cancel") then some (.ok .TryCancel)
  else none

/-- The matcher chain, in the source's order (the order is significant). -/
def parsers : List (String → List CommandPart → ParseResult) :=
  [parser_ping, parser_try_cancel, parser_try]

/-- Dispatch over the matcher chain: the first matcher that claims the
command name produces the final result; if none claims it, the result is
`UnknownCommand`. -/
def resolve_command (command : String) (rest : List CommandPart) :
    Except CommandParseError BorsCommand :=
  match parsers.findSome? (fun p => p command rest) with
  | some result => result
  | none => .error (.UnknownCommand command)

/-- The per-line body of `parse_commands` after tokenisation: an empty part
list (or a first part that is a key/value rather than a bare name) is
`MissingCommand`; otherwise the bare first part is the command name,
dispatched over the matcher chain. -/
def parse_tokens (tokens : List String) : Except CommandParseError BorsCommand :=
  match parse_parts_tokens tokens with
  | .error e => .error e
  | .ok [] => .error .MissingCommand
  | .ok (.Bare command :: rest) => resolve_command command rest
  | .ok (.KeyValue _ _ :: _) => .error .MissingCommand

/-- Parses the substring of one line that follows the command prefix. -/
def parse_line (command : String) : Except CommandParseError BorsCommand :=
  parse_tokens (split_whitespace command)

/-- The outcome one line contributes: `none` when the line does not contain
the prefix, otherwise the parse of everything after its first occurrence. -/
def line_result (pre : String) (line : String) :
    Option (Except CommandParseError BorsCommand) :=
  (after_first pre.data line.data).map (fun cmd => parse_line ⟨cmd⟩)

/-- `CommandParser::parse_commands`: one outcome per line containing the
prefix, in order. -/
def parse_commands (pre : String) (text : String) :
    List (Except CommandParseError BorsCommand) :=
  (rust_lines text).filterMap (fun line => line_result pre line)

/-! ### The permission cache (src/permissions.rs)

Time is modelled by a `Nat` clock reading passed explicitly (the source
reads `SystemTime::now()`); `CACHE_DURATION` is in the same unit (seconds
in the source). The external permission source (`load_permissions`, which
performs file/network I/O) is modelled by an `Option UserPermissions`
argument giving the outcome of the load attempted at that moment: `some`
on success, `none` on failure. `has_permission` is instrumented with the
number of `reload_permissions` invocations it performs (the source calls
`reload_permissions` for effect only), so that refresh behaviour can be
stated. -/

/-- `PermissionType` from src/permissions.rs. -/
inductive PermissionType where
  | Review
  | Try
deriving DecidableEq

/-- `UserPermissions`: the two user sets (a `HashSet<String>` each in the
source, modelled by lists queried by membership). -/
structure UserPermissions where
  review_users : List String
  try_users : List String
deriving DecidableEq

/-- `UserPermissions::has_permission`. -/
def UserPermissions.has_permission (up : UserPermissions) (username : String) :
    PermissionType → Bool
  | .Review => up.review_users.contains username
  | .Try => up.try_users.contains username

/-- `CACHE_DURATION`: for how long should the permissions be cached. -/
def CACHE_DURATION : Nat := 60

/-- `CachedUserPermissions`: a snapshot tagged with its creation time. -/
structure CachedUserPermissions where
  permissions : UserPermissions
  created_at : Nat
deriving DecidableEq

/-- `CachedUserPermissions::new` stamps the current clock reading. -/
def CachedUserPermissions.new (permissions : UserPermissions) (now : Nat) :
    CachedUserPermissions :=
  ⟨permissions, now⟩

/-- Model of `SystemTime::elapsed` against the clock reading `now`: fails
(returns `none`) when the creation timestamp lies in the future of `now`. -/
def elapsed (created_at now : Nat) : Option Nat :=
  if created_at ≤ now then some (now - created_at) else none

/-- `CachedUserPermissions::is_stale`: `elapsed().map(|d| d > CACHE_DURATION).unwrap_or(true)`. -/
def CachedUserPermissions.is_stale (c : CachedUserPermissions) (now : Nat) : Bool :=
  ((elapsed c.created_at now).map (fun duration => decide (duration > CACHE_DURATION))).getD true

/-- `TeamApiPermissionResolver` (the `repo` field only routes the load and
is dropped; the mutex-guarded cached snapshot is the state). -/
structure TeamApiPermissionResolver where
  permissions : CachedUserPermissions
deriving DecidableEq

/-- `TeamApiPermissionResolver::load`: construction fails when the initial
load fails; on success the cache holds the loaded snapshot stamped `now`. -/
def TeamApiPermissionResolver.load (load_result : Option UserPermissions) (now : Nat) :
    Option TeamApiPermissionResolver :=
  load_result.map (fun perms => ⟨CachedUserPermissions.new perms now⟩)

/-- `TeamApiPermissionResolver::reload_permissions`: on success the cached
snapshot is replaced wholesale by a new one stamped `now`; on failure the
error is only logged and the cached snapshot is left unchanged. -/
def TeamApiPermissionResolver.reload_permissions (r : TeamApiPermissionResolver)
    (load_result : Option UserPermissions) (now : Nat) : TeamApiPermissionResolver :=
  match load_result with
  | some perms => ⟨CachedUserPermissions.new perms now⟩
  | none => r

/-- `TeamApiPermissionResolver::has_permission`: if the cached snapshot is
stale, reload it (keeping the old snapshot when the reload fails), then
answer from the (possibly replaced) snapshot. Returns the boolean answer,
the state after the query, and the number of `reload_permissions` calls. -/
def TeamApiPermissionResolver.has_permission (r : TeamApiPermissionResolver)
    (load_result : Option UserPermissions) (now : Nat)
    (username : String) (permission : PermissionType) :
    Bool × TeamApiPermissionResolver × Nat :=
  if r.permissions.is_stale now then
    let r2 := r.reload_permissions load_result now
    (r2.permissions.permissions.has_permission username permission, r2, 1)
  else
    (r.permissions.permissions.has_permission username permission, r, 0)

/-! ### Helper lemmas -/

/-- A cached snapshot is not stale exactly when its age is computable and
at most `CACHE_DURATION`. -/
theorem is_stale_false_iff (c : CachedUserPermissions) (now : Nat) :
    c.is_stale now = false ↔
      (c.created_at ≤ now ∧ now - c.created_at ≤ CACHE_DURATION) := by
  by_cases h : c.created_at ≤ now
  · simp [CachedUserPermissions.is_stale, elapsed, h]
  · simp [CachedUserPermissions.is_stale, elapsed, h]

/-- Every parent value stored by the `parser_try` loop went through
`parse_sha`, so a successfully produced parent has exactly 40 characters
(given the invariant that the initial accumulator does too). -/
theorem parser_try_go_parent_length (parts : List CommandPart) :
    ∀ (p0 : Option CommitSha) (sha : CommitSha),
      (∀ t : CommitSha, p0 = some t → t.val.length = 40) →
      parser_try_go parts p0 = .ok (.Try (some sha)) → sha.val.length = 40 := by
  induction parts with
  | nil =>
    intro p0 sha hinv h
    simp [parser_try_go] at h
    exact hinv sha h
  | cons part rest ih =>
    intro p0 sha hinv h
    cases part with
    | Bare key => simp [parser_try_go] at h
    | KeyValue key value =>
      by_cases hkey : key = "parent"
      · subst hkey
        by_cases hlen : value.length = 40
        · rw [parser_try_go, if_pos rfl] at h
          rw [parse_sha, if_neg (by omega)] at h
          exact ih (some ⟨value⟩) sha
            (by intro t ht; cases ht; simpa using hlen) h
        · rw [parser_try_go, if_pos rfl] at h
          rw [parse_sha, if_pos (by omega)] at h
          simp at h
      · simp [parser_try_go, hkey] at h

/-- `filterMap` is the `map` of any section over the `filter` of the kept
elements (the default of `getD` is never consulted on the filtered list). -/
theorem filterMap_as_filter_map {α β : Type} (f : α → Option β) (d : β) (l : List α) :
    l.filterMap f = (l.filter (fun x => (f x).isSome)).map (fun x => (f x).getD d) := by
  induction l with
  | nil => rfl
  | cons x xs ih =>
    cases hfx : f x <;> simp [List.filterMap_cons, List.filter_cons, hfx, ih]

/-- `after_first` (the model of Rust `str::find` plus slicing) succeeds
exactly when the pattern occurs as a contiguous infix. -/
theorem after_first_isSome_iff (pat : List Char) (cs : List Char) :
    (after_first pat cs).isSome = true ↔ pat <:+: cs := by
  induction cs with
  | nil =>
    by_cases h : pat.isPrefixOf ([] : List Char)
    · have hp : pat = [] := by simpa using h
      subst hp
      simp [after_first]
    · simp [after_first, h, List.infix_nil]
      intro he
      subst he
      simp [List.isPrefixOf] at h
  | cons c cs ih =>
    by_cases h : pat.isPrefixOf (c :: cs)
    · simp [after_first, h]
      exact List.IsPrefix.isInfix (List.isPrefixOf_iff_prefix.mp h)
    · simp [after_first, h, ih]
      rw [List.infix_cons_iff]
      have : ¬ pat <+: (c :: cs) := by
        intro hp
        exact h (List.isPrefixOf_iff_prefix.mpr hp)
      tauto

/-! ### Claim theorems -/

/-- C1: when the cached snapshot is stale and the reload of permissions
fails (`load_result = none`), a `has_permission` query still returns a
boolean answer computed from the previously retained snapshot, and the
cached snapshot is left unchanged by the failed refresh (in particular
`reload_permissions` on failure is the identity on the resolver state). -/
theorem claim_C1_failed_refresh_serves_old_snapshot
    (r : TeamApiPermissionResolver) (now : Nat) (username : String)
    (permission : PermissionType)
    (h : r.permissions.is_stale now = true) :
    r.reload_permissions none now = r ∧
    r.has_permission none now username permission
      = (r.permissions.permissions.has_permission username permission, r, 1) := by
  refine ⟨rfl, ?_⟩
  simp [TeamApiPermissionResolver.has_permission, h,
    TeamApiPermissionResolver.reload_permissions]

/-- Witness for C1: a snapshot created at time 0 queried at time 100 (past
the 60-second TTL) with a failing reload still answers `true` for a user of
the retained snapshot, and the state is unchanged. -/
theorem claim_C1_witness :
    TeamApiPermissionResolver.reload_permissions ⟨⟨⟨["alice"], []⟩, 0⟩⟩ none 100
      = ⟨⟨⟨["alice"], []⟩, 0⟩⟩ ∧
    TeamApiPermissionResolver.has_permission ⟨⟨⟨["alice"], []⟩, 0⟩⟩ none 100 "alice"
        PermissionType.Review
      = (UserPermissions.has_permission ⟨["alice"], []⟩ "alice" PermissionType.Review,
         ⟨⟨⟨["alice"], []⟩, 0⟩⟩, 1) :=
  claim_C1_failed_refresh_serves_old_snapshot ⟨⟨⟨["alice"], []⟩, 0⟩⟩ 100 "alice"
    PermissionType.Review (by decide)

/-- C9: while the cached snapshot is fresh (age ≤ the fixed TTL) no query
triggers a refresh. First conjunct: immediately after construction, a query
for any username is answered purely from the initially loaded snapshot with
zero `reload_permissions` calls, whatever the permission source would do.
Second conjunct: the same holds whenever the snapshot's age is computable
and at most `CACHE_DURATION`. Third conjunct: a refresh is attempted only
when the query observes age > TTL (or an uncomputable age). -/
theorem claim_C9_fresh_snapshot_no_refresh :
    (∀ (perms : UserPermissions) (lr : Option UserPermissions) (t0 : Nat)
        (username : String) (p : PermissionType) (r : TeamApiPermissionResolver),
      TeamApiPermissionResolver.load (some perms) t0 = some r →
      r.has_permission lr t0 username p = (perms.has_permission username p, r, 0)) ∧
    (∀ (r : TeamApiPermissionResolver) (lr : Option UserPermissions) (now : Nat)
        (username : String) (p : PermissionType),
      r.permissions.created_at ≤ now → now - r.permissions.created_at ≤ CACHE_DURATION →
      r.has_permission lr now username p
        = (r.permissions.permissions.has_permission username p, r, 0)) ∧
    (∀ (r : TeamApiPermissionResolver) (lr : Option UserPermissions) (now : Nat)
        (username : String) (p : PermissionType),
      (r.has_permission lr now username p).2.2 ≠ 0 →
      ¬(r.permissions.created_at ≤ now ∧ now - r.permissions.created_at ≤ CACHE_DURATION)) := by
  have fresh : ∀ (r : TeamApiPermissionResolver) (lr : Option UserPermissions) (now : Nat)
      (username : String) (p : PermissionType),
      r.permissions.created_at ≤ now → now - r.permissions.created_at ≤ CACHE_DURATION →
      r.has_permission lr now username p
        = (r.permissions.permissions.has_permission username p, r, 0) := by
    intro r lr now username p h1 h2
    have hs : r.permissions.is_stale now = false := (is_stale_false_iff _ _).mpr ⟨h1, h2⟩
    simp [TeamApiPermissionResolver.has_permission, hs]
  refine ⟨?_, fresh, ?_⟩
  · intro perms lr t0 username p r hload
    have hr : r = ⟨CachedUserPermissions.new perms t0⟩ := by
      simpa [TeamApiPermissionResolver.load] using hload.symm
    subst hr
    exact fresh _ lr t0 username p (Nat.le_refl t0) (by simp [CachedUserPermissions.new])
  · intro r lr now username p hcalls hage
    have := fresh r lr now username p hage.1 hage.2
    rw [this] at hcalls
    exact hcalls rfl

/-- Witness for C9: a resolver freshly constructed at time 5 and queried at
time 5 answers from its snapshot with zero refresh calls. -/
theorem claim_C9_witness :
    TeamApiPermissionResolver.has_permission ⟨⟨⟨["u"], ["u"]⟩, 5⟩⟩ none 5 "u"
        PermissionType.Try
      = (UserPermissions.has_permission ⟨["u"], ["u"]⟩ "u" PermissionType.Try,
         ⟨⟨⟨["u"], ["u"]⟩, 5⟩⟩, 0) :=
  claim_C9_fresh_snapshot_no_refresh.1 ⟨["u"], ["u"]⟩ none 5 "u" PermissionType.Try
    ⟨⟨⟨["u"], ["u"]⟩, 5⟩⟩ (by decide)

/-- C10: when the snapshot's creation timestamp lies in the future of the
current clock reading, `elapsed` fails, `is_stale` treats the snapshot as
stale, and the next query attempts a refresh rather than serving the
snapshot as fresh. -/
theorem claim_C10_future_timestamp_is_stale
    (r : TeamApiPermissionResolver) (lr : Option UserPermissions) (now : Nat)
    (username : String) (p : PermissionType)
    (h : now < r.permissions.created_at) :
    elapsed r.permissions.created_at now = none ∧
    r.permissions.is_stale now = true ∧
    (r.has_permission lr now username p).2.2 = 1 := by
  have he : elapsed r.permissions.created_at now = none := by
    simp [elapsed]; omega
  have hs : r.permissions.is_stale now = true := by
    simp [CachedUserPermissions.is_stale, he]
  refine ⟨he, hs, ?_⟩
  simp [TeamApiPermissionResolver.has_permission, hs]

/-- Witness for C10: a snapshot stamped 100 queried at clock reading 0 is
stale and triggers a refresh attempt. -/
theorem claim_C10_witness :
    elapsed 100 0 = none ∧
    CachedUserPermissions.is_stale ⟨⟨[], []⟩, 100⟩ 0 = true ∧
    (TeamApiPermissionResolver.has_permission ⟨⟨⟨[], []⟩, 100⟩⟩ none 0 "x"
        PermissionType.Review).2.2 = 1 :=
  claim_C10_future_timestamp_is_stale ⟨⟨⟨[], []⟩, 100⟩⟩ none 0 "x"
    PermissionType.Review (by decide)

/-- C3: matcher dispatch is first-match-wins in the fixed order Ping,
TryCancel, Try: the command name `try` followed by the bare token `cancel`
resolves to `TryCancel` (the generic try matcher, which would reject
`cancel` as an unknown argument, is never consulted), and a bare command
name claimed by no matcher (neither `ping` nor `try`) resolves to
`UnknownCommand` on that name. -/
theorem claim_C3_dispatch_order :
    (∀ (rest : List CommandPart),
      resolve_command "try" (CommandPart.Bare "cancel" :: rest) = .ok .TryCancel) ∧
    (∀ (name : String) (rest : List CommandPart), name ≠ "ping" → name ≠ "try" →
      resolve_command name rest = .error (.UnknownCommand name)) := by
  constructor
  · intro rest
    simp [resolve_command, parsers, List.findSome?, parser_ping, parser_try_cancel]
  · intro name rest h1 h2
    simp [resolve_command, parsers, List.findSome?, parser_ping, parser_try_cancel,
      parser_try, h1, h2]

/-- Witness for C3: `try cancel` resolves to `TryCancel` and the unclaimed
name `foo` resolves to `UnknownCommand`. -/
theorem claim_C3_witness :
    resolve_command "try" [CommandPart.Bare "cancel"] = .ok .TryCancel ∧
    resolve_command "foo" [] = .error (.UnknownCommand "foo") :=
  ⟨claim_C3_dispatch_order.1 [CommandPart.Bare "cancel"],
   claim_C3_dispatch_order.2 "foo" [] (by decide) (by decide)⟩

/-- C4: a key/value token whose key is already among the keys seen so far
in the line makes the whole parse fail with `DuplicateArg` on that key, at
that (second) occurrence, whatever tokens follow; a key/value token whose
key has not been seen always succeeds and parsing continues with the key
recorded. The last conjunct propagates any splitter error (in particular
`DuplicateArg`) unchanged to the result of the whole line. -/
theorem claim_C4_duplicate_key :
    (∀ (item : String) (rest seen : List String) (parts : List CommandPart)
        (key value : String),
      split_once '=' item = some (key, value) →
      starts_with '@' item = false →
      value ≠ "" →
      (seen.contains key = true →
        parse_parts_aux (item :: rest) seen parts = .error (.DuplicateArg key)) ∧
      (seen.contains key = false →
        parse_parts_aux (item :: rest) seen parts
          = parse_parts_aux rest (key :: seen) (parts ++ [.KeyValue key value]))) ∧
    (∀ (tokens : List String) (e : CommandParseError),
      parse_parts_tokens tokens = .error e → parse_tokens tokens = .error e) := by
  constructor
  · intro item rest seen parts key value hsplit hat hval
    constructor
    · intro hk
      have hk2 : key ∈ seen := by simpa using hk
      simp [parse_parts_aux, hsplit, hat, hval, hk2]
    · intro hk
      have hk2 : key ∉ seen := by simpa using hk
      simp [parse_parts_aux, hsplit, hat, hval, hk2]
  · intro tokens e h
    simp [parse_tokens, h]

/-- Witness for C4: on the line `ping a=b a=c a=d` the first occurrence of
key `a` succeeds, the second fails with `DuplicateArg "a"` regardless of
the third, and the whole-line result is `DuplicateArg "a"`. -/
theorem claim_C4_witness :
    parse_parts_aux ["a=c", "a=d"] ["a"] [CommandPart.KeyValue "a" "b"]
      = .error (.DuplicateArg "a") ∧
    parse_parts_aux ["a=b", "a=c", "a=d"] [] []
      = parse_parts_aux ["a=c", "a=d"] ["a"] [CommandPart.KeyValue "a" "b"] ∧
    parse_tokens ["ping", "a=b", "a=c"] = .error (.DuplicateArg "a") := by
  refine ⟨?_, ?_, ?_⟩
  · exact ((claim_C4_duplicate_key.1 "a=c" ["a=d"] ["a"] [CommandPart.KeyValue "a" "b"]
      "a" "c" (by decide) (by decide) (by decide)).1 (by decide))
  · exact ((claim_C4_duplicate_key.1 "a=b" ["a=c", "a=d"] [] [] "a" "b"
      (by decide) (by decide) (by decide)).2 (by decide))
  · exact claim_C4_duplicate_key.2 ["ping", "a=b", "a=c"] (.DuplicateArg "a") (by decide)

/-- C2: a string whose length is not 40 supplied as the value of a
`parent=` token on a try line fails `parse_sha`, makes `parser_try` produce
the `ValidationError` embedding the explanation that the try parent must be
a valid commit SHA with exactly 40 characters (whatever follows the token),
and can never appear as the parent of a successfully parsed `Try`. -/
theorem claim_C2_invalid_parent_length (s : String) (h : s.length ≠ 40) :
    parse_sha s = .error "SHA must have exactly 40 characters" ∧
    (∀ (rest : List CommandPart) (p0 : Option CommitSha),
      parser_try_go (CommandPart.KeyValue "parent" s :: rest) p0
        = .error (.ValidationError
            "Try parent has to be a valid commit SHA: SHA must have exactly 40 characters")) ∧
    (∀ (parts : List CommandPart),
      parser_try "try" parts ≠ some (.ok (.Try (some ⟨s⟩)))) := by
  refine ⟨by simp [parse_sha, h], ?_, ?_⟩
  · intro rest p0
    rw [parser_try_go, if_pos rfl, parse_sha, if_pos h]
    rfl
  · intro parts hcontra
    rw [parser_try, if_pos rfl] at hcontra
    have := parser_try_go_parent_length parts none ⟨s⟩ (by intro t ht; cases ht)
      (Option.some.inj hcontra)
    simp at this
    exact h this

/-- Witness for C2: `parent=foo` produces the `ValidationError` and `foo`
never appears as a successful try parent. -/
theorem claim_C2_witness :
    parse_sha "foo" = .error "SHA must have exactly 40 characters" ∧
    parser_try_go [CommandPart.KeyValue "parent" "foo"] none
      = .error (.ValidationError
          "Try parent has to be a valid commit SHA: SHA must have exactly 40 characters") ∧
    parser_try "try" [CommandPart.KeyValue "parent" "foo"]
      ≠ some (.ok (.Try (some ⟨"foo"⟩))) :=
  ⟨(claim_C2_invalid_parent_length "foo" (by decide)).1,
   (claim_C2_invalid_parent_length "foo" (by decide)).2.1 [] none,
   (claim_C2_invalid_parent_length "foo" (by decide)).2.2 [CommandPart.KeyValue "parent" "foo"]⟩

/-- C7: a 40-character string supplied as the value of a `parent=` token is
accepted by `parse_sha` verbatim (the identical string, character for
character, wrapped as the commit identifier), the try loop records it as
the parent, and a try line whose only argument is `parent=<v>` parses to
`Try{parent: Some v}`. -/
theorem claim_C7_valid_parent_verbatim (v : String) (h : v.length = 40) :
    parse_sha v = .ok ⟨v⟩ ∧
    (∀ (rest : List CommandPart) (p0 : Option CommitSha),
      parser_try_go (CommandPart.KeyValue "parent" v :: rest) p0
        = parser_try_go rest (some ⟨v⟩)) ∧
    parser_try "try" [CommandPart.KeyValue "parent" v]
      = some (.ok (.Try (some ⟨v⟩))) := by
  have hsha : parse_sha v = .ok ⟨v⟩ := by
    rw [parse_sha, if_neg (by omega)]
  refine ⟨hsha, ?_, ?_⟩
  · intro rest p0
    rw [parser_try_go, if_pos rfl, hsha]
  · rw [parser_try, if_pos rfl, parser_try_go, if_pos rfl, hsha]
    rfl

/-- Witness for C7: the spec's 40-character commit identifier is preserved
verbatim into `Try{parent: Some ...}`. -/
theorem claim_C7_witness :
    parse_sha "ea9c1b050cc8b420c2c211d2177811e564a4dc60"
      = .ok ⟨"ea9c1b050cc8b420c2c211d2177811e564a4dc60"⟩ ∧
    parser_try "try"
        [CommandPart.KeyValue "parent" "ea9c1b050cc8b420c2c211d2177811e564a4dc60"]
      = some (.ok (.Try (some ⟨"ea9c1b050cc8b420c2c211d2177811e564a4dc60"⟩))) :=
  ⟨(claim_C7_valid_parent_verbatim "ea9c1b050cc8b420c2c211d2177811e564a4dc60" (by decide)).1,
   (claim_C7_valid_parent_verbatim "ea9c1b050cc8b420c2c211d2177811e564a4dc60" (by decide)).2.2⟩

/-- Counterexample to C5 as stated: on the line `@bors ping a=` the command
substring begins with the bare token `ping`, yet parsing does not yield
`Ok(Ping)` — the trailing token `a=` is validated by the splitter and
rejected with `MissingArgValue "a"` (this is the behaviour the repository's
own `parse_arg_no_value` test asserts). -/
theorem claim_C5_counterexample :
    parse_commands "@bors" "@bors ping a=" = [.error (.MissingArgValue "a")] ∧
    parse_commands "@bors" "@bors ping a=" ≠ [.ok .Ping] := by
  constructor <;> decide

/-- C5 (amended): the ping matcher itself ignores all parts, and for every
line whose command substring lexes successfully into parts beginning with
the bare part `ping`, parsing yields `Ok(Ping)` with the remaining parts
discarded unexamined; splitter-level errors (missing value, duplicate key)
still apply before dispatch. -/
theorem claim_C5_ping_ignores_parts :
    (∀ (parts : List CommandPart), parser_ping "ping" parts = some (.ok .Ping)) ∧
    (∀ (tokens : List String) (rest : List CommandPart),
      parse_parts_tokens tokens = .ok (CommandPart.Bare "ping" :: rest) →
      parse_tokens tokens = .ok .Ping) := by
  constructor
  · intro parts
    rfl
  · intro tokens rest h
    simp [parse_tokens, h, resolve_command, parsers, List.findSome?, parser_ping]

/-- Witness for C5 (amended): `ping a` parses to `Ping`, the trailing bare
argument ignored. -/
theorem claim_C5_witness :
    parser_ping "ping" [CommandPart.Bare "a"] = some (.ok .Ping) ∧
    parse_tokens ["ping", "a"] = .ok .Ping :=
  ⟨claim_C5_ping_ignores_parts.1 [CommandPart.Bare "a"],
   claim_C5_ping_ignores_parts.2 ["ping", "a"] [CommandPart.Bare "a"] (by decide)⟩

/-- C6: for every command, all tokens at or after the first token starting
with `@` are excluded from argument parsing — the splitter produces the
same parts and the same errors as if the line ended before the mention, and
the chosen command and its arguments are unaffected, whatever the tokens
after the mention are. -/
theorem claim_C6_mention_truncation (a : String) (ha : starts_with '@' a = true) :
    (∀ (ts₁ ts₂ seen : List String) (parts : List CommandPart),
      parse_parts_aux (ts₁ ++ a :: ts₂) seen parts = parse_parts_aux ts₁ seen parts) ∧
    (∀ (ts₁ ts₂ : List String), parse_tokens (ts₁ ++ a :: ts₂) = parse_tokens ts₁) := by
  have main : ∀ (ts₁ ts₂ seen : List String) (parts : List CommandPart),
      parse_parts_aux (ts₁ ++ a :: ts₂) seen parts = parse_parts_aux ts₁ seen parts := by
    intro ts₁
    induction ts₁ with
    | nil =>
      intro ts₂ seen parts
      simp [parse_parts_aux, ha]
    | cons t ts ih =>
      intro ts₂ seen parts
      by_cases h : starts_with '@' t
      · simp [parse_parts_aux, h]
      · cases hso : split_once '=' t with
        | none => simp [parse_parts_aux, h, hso, ih]
        | some kv =>
          obtain ⟨k, v⟩ := kv
          by_cases hv : v = ""
          · simp [parse_parts_aux, h, hso, hv]
          · simp [parse_parts_aux, h, hso, hv]
            split
            · rfl
            · exact ih ts₂ (k :: seen) (parts ++ [CommandPart.KeyValue k v])
  refine ⟨main, ?_⟩
  intro ts₁ ts₂
  simp [parse_tokens, parse_parts_tokens, main ts₁ ts₂ [] []]

/-- Witness for C6: `try @rust-timer queue` parses exactly like `try`,
namely to `Ok(Try{parent: None})`. -/
theorem claim_C6_witness :
    parse_tokens ["try", "@rust-timer", "queue"] = parse_tokens ["try"] ∧
    parse_tokens ["try"] = .ok (.Try none) :=
  ⟨(claim_C6_mention_truncation "@rust-timer" (by decide)).2 ["try"] ["queue"],
   by decide⟩

/-- C8: `parse_commands` yields exactly one outcome per line containing the
configured prefix, in the lines' original top-to-bottom order, each line's
outcome a function of that line alone; a line qualifies exactly when the
prefix occurs in it as a contiguous substring; and when no line contains
the prefix the result sequence is empty. -/
theorem claim_C8_one_outcome_per_line (pre text : String) :
    (parse_commands pre text
      = ((rust_lines text).filter (fun line => (line_result pre line).isSome)).map
          (fun line => (line_result pre line).getD (.error .MissingCommand))) ∧
    (∀ line, ((line_result pre line).isSome = true ↔ pre.data <:+: line.data)) ∧
    ((∀ line ∈ rust_lines text, line_result pre line = none) →
      parse_commands pre text = []) := by
  refine ⟨filterMap_as_filter_map _ _ _, ?_, ?_⟩
  · intro line
    rw [← after_first_isSome_iff pre.data line.data]
    simp [line_result]
  · intro h
    simp [parse_commands, List.filterMap_eq_nil_iff]
    exact h

/-- Witness for C8: a comment without the prefix parses to the empty result
sequence. -/
theorem claim_C8_witness :
    parse_commands "@bors" "Hi, this PR looks nice!" = [] :=
  (claim_C8_one_outcome_per_line "@bors" "Hi, this PR looks nice!").2.2 (by decide)

end Bors
